import Mathlib

/-!
Shallow embedding of the request-decoding and validation pipeline of
`src/main.go` (package main): the field-descriptor data model, the source
reader `getRawValue`, the value coercer `setFieldValue` (with its slice
coercions), the extraction pipeline `ValidateRequest`, and the custom
validation rules `in` and `unique` registered in `init`, together with the
message table `getValidationMessage`.

Machine integers: Go `uint64` is modelled as `Nat` with the bound `2 ^ 64`
enforced at parse time (`strconv.ParseUint(_, 10, 64)` fails with `ErrRange`
above it); `int64` as `Int` with the corresponding bounds. Strings are Lean
`String`; the splitting and trimming of Go's `strings` package is embedded
on `List Char`.

The call `validate.Struct(req)` goes to the external library
`github.com/go-playground/validator/v10`, which is not part of this
repository; the pipeline is therefore parameterised by the function
`validateStruct : GenericRequest → List ValidationError` standing for that
call composed with the error-translation loop of lines 159-169 of
`src/main.go`.
-/

namespace Validate

/-- The `RequestParser` (src/main.go lines 74-81): where to get the data from. -/
inductive RequestParser where
  | body
  | query
  | param
deriving DecidableEq, Repr

/-- The `ValidationConfig` (src/main.go lines 83-90): descriptor for one field. -/
structure ValidationConfig where
  FieldName : String
  Parser : RequestParser
  Required : Bool
  Default : String
  ValidateTags : String
deriving DecidableEq, Repr

/-- The `GenericRequest` (src/main.go lines 92-108). Go zero values are the
empty string, the nil slice and `0`. The unexported `validationGroup`
field is carried along; it is set from the `group` argument and is not
reachable by name through the field table below (reflection can find it by
name but `Set` on an unexported field panics, which is outside this
embedding). `uint64` fields hold `Nat` values kept below `2 ^ 64` by the
parser. -/
structure GenericRequest where
  Name : String
  Email : String
  Tags : List String
  IDs : List Nat
  UserID : Nat
  Rating : Int
  validationGroup : String
deriving DecidableEq, Repr

/-- The Go zero value of `GenericRequest` with `validationGroup` set, as
built at src/main.go line 115. -/
def zeroRequest (group : String) : GenericRequest :=
  { Name := "", Email := "", Tags := [], IDs := [], UserID := 0, Rating := 0,
    validationGroup := group }

/-- The `ValidationError` (src/main.go lines 60-65). `Value` has `omitempty`,
so a missing value is the empty string. -/
structure ValidationError where
  Field : String
  Message : String
  Value : String
deriving DecidableEq, Repr

/-- The incoming `*http.Request` restricted to what the pipeline reads:
the query parameters (`r.URL.Query()`, first value wins on `Get`), the mux
route variables (`mux.Vars(r)`), and the raw body, which `ValidateRequest`
never decodes. -/
structure Request where
  query : List (String × String)
  params : List (String × String)
  body : String
deriving DecidableEq, Repr

/-- The `getRawValue` (src/main.go lines 190-204). For the body parser it
returns `("", false)` unconditionally (the comment in the source defers
body parsing to a JSON decoder that is never invoked). `Query().Get`
returns the first value for the key and `""` when absent; `Query().Has`
reports key presence, which `List.lookup` models on an association list. -/
def getRawValue (r : Request) (cfg : ValidationConfig) : String × Bool :=
  match cfg.Parser with
  | .body => ("", false)
  | .query =>
      match r.query.lookup cfg.FieldName with
      | some v => (v, true)
      | none => ("", false)
  | .param =>
      match r.params.lookup cfg.FieldName with
      | some v => (v, true)
      | none => ("", false)

/-- The exported fields of `GenericRequest` that
`reflect.ValueOf(req).Elem().FieldByName` can reach and `setFieldValue`
can set. -/
inductive Field where
  | Name
  | Email
  | Tags
  | IDs
  | UserID
  | Rating
deriving DecidableEq, Repr

/-- The `FieldByName` on `GenericRequest` (src/main.go line 120): `none` is
the `!field.IsValid()` case for a name matching no field. -/
def lookupField (name : String) : Option Field :=
  if name = "Name" then some .Name
  else if name = "Email" then some .Email
  else if name = "Tags" then some .Tags
  else if name = "IDs" then some .IDs
  else if name = "UserID" then some .UserID
  else if name = "Rating" then some .Rating
  else none

/-- Go `unicode.IsSpace` restricted to Latin-1, the full set for the
byte-range inputs this code handles: `'\t'`, `'\n'`, `'\v'`, `'\f'`,
`'\r'`, `' '`, U+0085 (NEL) and U+00A0 (NBSP). -/
def isGoSpace (c : Char) : Bool :=
  c = ' ' || c = '\t' || c = '\n' || c = Char.ofNat 11 || c = Char.ofNat 12 ||
    c = '\r' || c = Char.ofNat 133 || c = Char.ofNat 160

/-- The `strings.Split` with a one-character separator, on the character
list: `strings.Split("", ",") = [""]`, so the empty list of characters
splits to one empty piece. -/
def splitChar (sep : Char) : List Char → List (List Char)
  | [] => [[]]
  | c :: cs =>
      if c = sep then [] :: splitChar sep cs
      else
        match splitChar sep cs with
        | [] => [[c]]
        | g :: gs => (c :: g) :: gs

/-- The `strings.Split (s, sep)` for a one-character `sep`. -/
def goSplit (s : String) (sep : Char) : List String :=
  (splitChar sep s.toList).map (fun l => ⟨l⟩)

/-- The `strings.TrimSpace` on the character list. -/
def trimChars (l : List Char) : List Char :=
  ((l.dropWhile isGoSpace).reverse.dropWhile isGoSpace).reverse

/-- The `strings.TrimSpace`. -/
def trimSpace (s : String) : String := ⟨trimChars s.toList⟩

/-- Decimal digit value of a character, `none` for a non-digit. -/
def digitVal (c : Char) : Option Nat :=
  if '0' ≤ c ∧ c ≤ '9' then some (c.toNat - '0'.toNat) else none

/-- Accumulating base-10 scan of a digit string, `none` on the first
non-digit. -/
def parseDigitsAux (acc : Nat) : List Char → Option Nat
  | [] => some acc
  | c :: cs =>
      match digitVal c with
      | some d => parseDigitsAux (acc * 10 + d) cs
      | none => none

/-- The `strconv.ParseUint(s, 10, 64)`: no sign prefix is permitted, the whole
string must be base-10 digits and nonempty, and a value of `2 ^ 64` or
more is `ErrRange`. All failure modes collapse to `none`. -/
def parseUint (s : String) : Option Nat :=
  if s.toList = [] then none
  else
    match parseDigitsAux 0 s.toList with
    | none => none
    | some v => if v < 2 ^ 64 then some v else none

/-- Body of `strconv.ParseInt(s, 10, 64)` after the optional sign:
`neg` records a leading `'-'`. -/
def parseIntCore (neg : Bool) (l : List Char) : Option Int :=
  if l = [] then none
  else
    match parseDigitsAux 0 l with
    | none => none
    | some v =>
        if neg then
          if v ≤ 2 ^ 63 then some (-(v : Int)) else none
        else
          if v < 2 ^ 63 then some (v : Int) else none

/-- The `strconv.ParseInt(s, 10, 64)`: optional `'+'` or `'-'`, then digits;
64-bit signed range. -/
def parseInt (s : String) : Option Int :=
  match s.toList with
  | '+' :: rest => parseIntCore false rest
  | '-' :: rest => parseIntCore true rest
  | l => parseIntCore false l

/-- The `reflect.String` element branch of the `reflect.Slice` case of
`setFieldValue` (src/main.go lines 228-233): split the raw value on `','`
and trim surrounding whitespace from every element. Never fails. -/
def coerceStringList (raw : String) : List String :=
  (goSplit raw ',').map trimSpace

/-- The element loop of the `reflect.Uint64` slice branch of
`setFieldValue` (src/main.go lines 236-243), with `i` the 1-based index
of the head piece: trim and parse each piece, stopping at the first
failure with the message naming that piece's index. -/
def coerceUintListAux (i : Nat) : List String → Except String (List Nat)
  | [] => .ok []
  | v :: vs =>
      match parseUint (trimSpace v) with
      | none => .error ("element " ++ Nat.repr i ++ ": must be positive integer")
      | some n =>
          match coerceUintListAux (i + 1) vs with
          | .error e => .error e
          | .ok rest => .ok (n :: rest)

/-- The `reflect.Uint64` slice branch of `setFieldValue` (src/main.go
lines 235-244): split on `','`, then the element loop from index 1. -/
def coerceUintList (raw : String) : Except String (List Nat) :=
  coerceUintListAux 1 (goSplit raw ',')

/-- The `setFieldValue` (src/main.go lines 206-254), dispatched on the field
rather than on `reflect.Kind`: `Name`/`Email` are the `reflect.String`
case, `Rating` the `reflect.Int` case, `UserID` the `reflect.Uint64`
case, `Tags`/`IDs` the two supported `reflect.Slice` cases. Every
exported field of `GenericRequest` has a supported kind, so the two
`unsupported` error returns of the source are unreachable here. On error
the record is returned unchanged (Go returns before any `Set`). -/
def setFieldValue (f : Field) (rawValue : String) (req : GenericRequest) :
    Except String GenericRequest :=
  match f with
  | .Name => .ok { req with Name := rawValue }
  | .Email => .ok { req with Email := rawValue }
  | .Rating =>
      match parseInt rawValue with
      | none => .error "must be a valid integer"
      | some v => .ok { req with Rating := v }
  | .UserID =>
      match parseUint rawValue with
      | none => .error "must be a positive integer"
      | some v => .ok { req with UserID := v }
  | .Tags => .ok { req with Tags := coerceStringList rawValue }
  | .IDs =>
      match coerceUintList rawValue with
      | .error e => .error e
      | .ok l => .ok { req with IDs := l }

/-- One iteration of the descriptor loop of `ValidateRequest`
(src/main.go lines 119-145): resolve the field by name (silently skipping
when `!field.IsValid()`), look up the raw value, apply the required
policy, and coerce. Returns the errors this descriptor appends and the
updated record. Note that `cfg.Default` is never consulted: the source
never reads it. -/
def processField (r : Request) (req : GenericRequest) (cfg : ValidationConfig) :
    List ValidationError × GenericRequest :=
  match lookupField cfg.FieldName with
  | none => ([], req)
  | some f =>
      if (getRawValue r cfg).2 then
        match setFieldValue f (getRawValue r cfg).1 req with
        | .error e => ([⟨cfg.FieldName, e, (getRawValue r cfg).1⟩], req)
        | .ok req2 => ([], req2)
      else
        if cfg.Required then
          ([⟨cfg.FieldName, "This field is required", ""⟩], req)
        else
          ([], req)

/-- The full descriptor loop of `ValidateRequest` (src/main.go lines
119-145): fold `processField` over the configured fields in declaration
order, accumulating errors. -/
def extractFields (r : Request) : List ValidationConfig → GenericRequest →
    List ValidationError × GenericRequest
  | [], req => ([], req)
  | cfg :: rest, req =>
      let step := processField r req cfg
      let tail := extractFields r rest step.2
      (step.1 ++ tail.1, tail.2)

/-- The three outcomes a request can get from the handler: the 400
response of lines 148-156, the 422 response of lines 171-177, and the
200 response of lines 182-186 of src/main.go. -/
inductive Outcome where
  | badRequest (code : Nat) (message : String) (errors : List ValidationError)
  | unprocessable (code : Nat) (message : String) (errors : List ValidationError)
  | valid (data : GenericRequest)
deriving DecidableEq, Repr

/-- The `ValidateRequest` (src/main.go lines 111-188) for one request:
initialise the record with the validation group, run the extraction loop,
return 400 with the collected errors if any, otherwise hand the record to
the validation engine (`validateStruct`, the external validator call) and
return 422 with its errors or the valid record. -/
def ValidateRequest (configs : List ValidationConfig) (group : String)
    (validateStruct : GenericRequest → List ValidationError) (r : Request) :
    Outcome :=
  if (extractFields r configs (zeroRequest group)).1.isEmpty then
    match validateStruct (extractFields r configs (zeroRequest group)).2 with
    | [] => .valid (extractFields r configs (zeroRequest group)).2
    | verrs => .unprocessable 422 "Validation failed" verrs
  else
    .badRequest 400 "Invalid request data" (extractFields r configs (zeroRequest group)).1

/-- The custom `in` validation registered at src/main.go lines 25-35:
split the parameter on `','` and compare each piece against the field
value's string form, exact match. -/
def inRule (param : String) (fieldValue : String) : Bool :=
  (goSplit param ',').any (fun v => v = fieldValue)

/-- The duplicate scan of the custom `unique` validation (src/main.go
lines 40-47) on the string forms of the elements, with `seen` the set
built so far: `false` on the first repeated string form. -/
def uniqueAux (seen : List String) : List String → Bool
  | [] => true
  | v :: vs => if seen.contains v then false else uniqueAux (v :: seen) vs

/-- The custom `unique` validation registered at src/main.go lines 37-50,
applied to a slice whose elements have the given string forms. -/
def uniqueRule (elems : List String) : Bool :=
  uniqueAux [] elems

/-- The `strings.Replace(s, ",", ", ", -1)` as called at src/main.go line
275: every comma becomes comma-space. -/
def replaceCommas (s : String) : String :=
  ⟨s.toList.flatMap (fun c => if c = ',' then [',', ' '] else [c])⟩

/-- The `reflect.Kind` distinctions `getValidationMessage` makes. -/
inductive MsgKind where
  | str
  | slice
  | other
deriving DecidableEq, Repr

/-- The `getValidationMessage` (src/main.go lines 256-285). `errString`
stands for `e.Error()`, the library-provided default description used by
the `dive` and fallback branches. -/
def getValidationMessage (tag : String) (param : String) (kind : MsgKind)
    (errString : String) : String :=
  if tag = "required" then "This field is required"
  else if tag = "min" then
    match kind with
    | .str => "Minimum " ++ param ++ " characters required"
    | .slice => "At least " ++ param ++ " items required"
    | .other => "Minimum value is " ++ param
  else if tag = "max" then
    match kind with
    | .str => "Maximum " ++ param ++ " characters allowed"
    | .slice => "Maximum " ++ param ++ " items allowed"
    | .other => "Maximum value is " ++ param
  else if tag = "in" then "Must be one of: " ++ replaceCommas param
  else if tag = "unique" then "Contains duplicate values"
  else if tag = "dive" then "Invalid element: " ++ errString
  else if tag = "email" then "Invalid email format"
  else errString

/-- Inverse of `splitChar`: join pieces with the separator. Used to state
that `splitChar` is a genuine split, and to build the re-serialized input
of the idempotence property. -/
def joinChar (sep : Char) : List (List Char) → List Char
  | [] => []
  | [g] => g
  | g :: gs => g ++ sep :: joinChar sep gs

/-- Comma-joining of strings, the re-serialization used by the spec's
idempotence property for unsigned-integer lists. -/
def commaJoin (l : List String) : String :=
  ⟨joinChar ',' (l.map String.toList)⟩

/-- The decimal digit character for a value below ten. -/
def digitChar (d : Nat) : Char :=
  match d with
  | 0 => '0'
  | 1 => '1'
  | 2 => '2'
  | 3 => '3'
  | 4 => '4'
  | 5 => '5'
  | 6 => '6'
  | 7 => '7'
  | 8 => '8'
  | _ => '9'

/-- The base-10 digit string of a natural number, most significant digit
first, as `strconv.FormatUint(n, 10)` produces it. -/
def decimalChars (n : Nat) : List Char :=
  if n = 0 then ['0'] else ((Nat.digits 10 n).reverse.map digitChar)

/-- The decimal representation of a natural number. -/
def decimalRepr (n : Nat) : String :=
  ⟨decimalChars n⟩

/-- The errors one descriptor contributes, independent of the record being
assembled (the record only influences the successor record, never the
error list). -/
def fieldErrors (r : Request) (cfg : ValidationConfig) : List ValidationError :=
  match lookupField cfg.FieldName with
  | none => []
  | some f =>
      if (getRawValue r cfg).2 then
        match setFieldValue f (getRawValue r cfg).1 (zeroRequest "") with
        | .error e => [⟨cfg.FieldName, e, (getRawValue r cfg).1⟩]
        | .ok _ => []
      else
        if cfg.Required then
          ([⟨cfg.FieldName, "This field is required", ""⟩])
        else
          []

theorem splitChar_ne_nil (sep : Char) (l : List Char) : splitChar sep l ≠ [] := by
  cases l with
  | nil => simp [splitChar]
  | cons c cs =>
      simp only [splitChar]
      split
      · simp
      · split <;> simp

theorem joinChar_cons_ne_nil (sep : Char) (g : List Char) (gs : List (List Char))
    (h : gs ≠ []) : joinChar sep (g :: gs) = g ++ sep :: joinChar sep gs := by
  cases gs with
  | nil => exact absurd rfl h
  | cons g2 gs2 => rfl

theorem joinChar_splitChar (sep : Char) (l : List Char) :
    joinChar sep (splitChar sep l) = l := by
  induction l with
  | nil => rfl
  | cons c cs ih =>
      by_cases hc : c = sep
      · subst hc
        rw [splitChar, if_pos rfl, joinChar_cons_ne_nil c [] _ (splitChar_ne_nil c cs), ih]
        rfl
      · simp only [splitChar, if_neg hc]
        rcases hgs : splitChar sep cs with _ | ⟨g, gs⟩
        · exact absurd hgs (splitChar_ne_nil sep cs)
        · rw [hgs] at ih
          cases gs with
          | nil => simpa [joinChar] using congrArg (c :: ·) ih
          | cons g2 gs2 =>
              rw [joinChar_cons_ne_nil sep (c :: g) _ (by simp)]
              rw [joinChar_cons_ne_nil sep g _ (by simp)] at ih
              simpa using congrArg (c :: ·) ih

theorem splitChar_of_no_sep (sep : Char) (l : List Char)
    (h : ∀ c ∈ l, c ≠ sep) : splitChar sep l = [l] := by
  induction l with
  | nil => rfl
  | cons c cs ih =>
      have hc : c ≠ sep := h c (by simp)
      simp only [splitChar, if_neg hc]
      rw [ih (fun x hx => h x (by simp [hx]))]

theorem splitChar_append_sep (sep : Char) (p rest : List Char)
    (h : ∀ c ∈ p, c ≠ sep) :
    splitChar sep (p ++ sep :: rest) = p :: splitChar sep rest := by
  induction p with
  | nil => simp [splitChar]
  | cons c p' ih =>
      have hc : c ≠ sep := h c (by simp)
      have ih' := ih (fun x hx => h x (by simp [hx]))
      rw [List.cons_append, splitChar, if_neg hc, ih']

theorem splitChar_joinChar (sep : Char) (ps : List (List Char)) (hne : ps ≠ [])
    (h : ∀ p ∈ ps, ∀ c ∈ p, c ≠ sep) :
    splitChar sep (joinChar sep ps) = ps := by
  induction ps with
  | nil => exact absurd rfl hne
  | cons p ps' ih =>
      cases ps' with
      | nil =>
          simp only [joinChar]
          exact splitChar_of_no_sep sep p (h p (by simp))
      | cons p2 ps2 =>
          rw [joinChar_cons_ne_nil sep p _ (by simp)]
          rw [splitChar_append_sep sep p _ (h p (by simp))]
          rw [ih (by simp) (fun q hq => h q (by simp [hq]))]

theorem dropWhile_eq_self_of_forall {p : Char → Bool} {l : List Char}
    (h : ∀ c ∈ l, p c = false) : l.dropWhile p = l := by
  cases l with
  | nil => rfl
  | cons c cs => simp [List.dropWhile_cons, h c (by simp)]

theorem dropWhile_eq_nil_of_forall {p : Char → Bool} {l : List Char}
    (h : ∀ c ∈ l, p c = true) : l.dropWhile p = [] := by
  induction l with
  | nil => rfl
  | cons c cs ih =>
      simp [List.dropWhile_cons, h c (by simp), ih (fun x hx => h x (by simp [hx]))]

theorem trimChars_eq_self_of_forall {l : List Char}
    (h : ∀ c ∈ l, isGoSpace c = false) : trimChars l = l := by
  unfold trimChars
  rw [dropWhile_eq_self_of_forall h]
  rw [dropWhile_eq_self_of_forall (fun c hc => h c (List.mem_reverse.mp hc))]
  exact l.reverse_reverse

theorem trimChars_eq_nil_of_forall {l : List Char}
    (h : ∀ c ∈ l, isGoSpace c = true) : trimChars l = [] := by
  unfold trimChars
  rw [dropWhile_eq_nil_of_forall h]
  simp

theorem dropWhile_idem (p : Char → Bool) (l : List Char) :
    (l.dropWhile p).dropWhile p = l.dropWhile p := by
  induction l with
  | nil => rfl
  | cons c cs ih =>
      by_cases hc : p c = true
      · simp [List.dropWhile_cons, hc, ih]
      · simp only [Bool.not_eq_true] at hc
        simp [List.dropWhile_cons, hc]

theorem dropWhile_eq_self_of_prefix {p : Char → Bool} {d x y : List Char}
    (hd : d.dropWhile p = d) (hxy : d = x ++ y) : x.dropWhile p = x := by
  subst hxy
  cases x with
  | nil => rfl
  | cons a x' =>
      have h0 : (0 : Nat) < ((a :: x') ++ y).length := by simp
      have ha := List.dropWhile_eq_self_iff.mp hd h0
      have ha' : ¬p a := by simpa using ha
      rw [List.dropWhile_eq_self_iff]
      intro hl
      simpa using ha'

theorem trimChars_idem (l : List Char) : trimChars (trimChars l) = trimChars l := by
  have hd : (l.dropWhile isGoSpace).dropWhile isGoSpace = l.dropWhile isGoSpace :=
    dropWhile_idem _ _
  set d := l.dropWhile isGoSpace with hdef
  have hm : trimChars l = ((d.reverse.dropWhile isGoSpace).reverse : List Char) := rfl
  have h2 : d = (d.reverse.takeWhile isGoSpace ++ d.reverse.dropWhile isGoSpace).reverse := by
    rw [List.takeWhile_append_dropWhile]
    simp
  have hsplit : d = trimChars l ++ (d.reverse.takeWhile isGoSpace).reverse := by
    rw [hm]
    rw [List.reverse_append] at h2
    exact h2
  have hlt : (trimChars l).dropWhile isGoSpace = trimChars l :=
    dropWhile_eq_self_of_prefix hd hsplit
  show (((trimChars l).dropWhile isGoSpace).reverse.dropWhile isGoSpace).reverse = trimChars l
  rw [hlt]
  rw [hm]
  simp only [List.reverse_reverse]
  rw [dropWhile_idem]

theorem trimSpace_idem (s : String) : trimSpace (trimSpace s) = trimSpace s := by
  show (⟨trimChars (trimChars s.toList)⟩ : String) = ⟨trimChars s.toList⟩
  rw [trimChars_idem]

theorem digitChar_not_sep_not_space (d : Nat) :
    digitChar d ≠ ',' ∧ isGoSpace (digitChar d) = false := by
  unfold digitChar
  split <;> exact ⟨by decide, by decide⟩

theorem digitVal_digitChar {d : Nat} (h : d < 10) :
    digitVal (digitChar d) = some d := by
  interval_cases d <;> rfl

theorem parseDigitsAux_map (ds : List Nat) (h : ∀ d ∈ ds, d < 10) :
    ∀ acc, parseDigitsAux acc (ds.map digitChar) =
      some (ds.foldl (fun a d => a * 10 + d) acc) := by
  induction ds with
  | nil => intro acc; rfl
  | cons d ds' ih =>
      intro acc
      have hd : d < 10 := h d (by simp)
      simp only [List.map_cons, parseDigitsAux, digitVal_digitChar hd]
      exact ih (fun x hx => h x (by simp [hx])) (acc * 10 + d)

theorem foldl_eq_ofDigits (ds : List Nat) :
    ∀ acc, ds.foldl (fun a d => a * 10 + d) acc =
      acc * 10 ^ ds.length + Nat.ofDigits 10 ds.reverse := by
  induction ds with
  | nil => intro acc; simp [Nat.ofDigits]
  | cons d ds' ih =>
      intro acc
      simp only [List.foldl_cons, List.length_cons, List.reverse_cons]
      rw [ih (acc * 10 + d), Nat.ofDigits_append]
      simp only [List.length_reverse, Nat.ofDigits_singleton]
      ring

theorem parseDigitsAux_decimalChars (n : Nat) :
    parseDigitsAux 0 (decimalChars n) = some n := by
  by_cases hn : n = 0
  · subst hn; rfl
  · unfold decimalChars
    rw [if_neg hn]
    have hlt : ∀ d ∈ (Nat.digits 10 n).reverse, d < 10 := by
      intro d hd
      exact Nat.digits_lt_base (by norm_num) (List.mem_reverse.mp hd)
    rw [parseDigitsAux_map _ hlt 0, foldl_eq_ofDigits]
    simp [Nat.ofDigits_digits]

theorem decimalChars_ne_nil (n : Nat) : decimalChars n ≠ [] := by
  unfold decimalChars
  by_cases hn : n = 0
  · simp [hn]
  · rw [if_neg hn]
    simp [Nat.digits_ne_nil_iff_ne_zero.mpr hn]

theorem decimalChars_no_sep_no_space (n : Nat) :
    ∀ c ∈ decimalChars n, c ≠ ',' ∧ isGoSpace c = false := by
  intro c hc
  unfold decimalChars at hc
  by_cases hn : n = 0
  · rw [if_pos hn] at hc
    simp at hc
    subst hc
    exact ⟨by decide, by decide⟩
  · rw [if_neg hn] at hc
    obtain ⟨d, _, hd⟩ := List.mem_map.mp hc
    subst hd
    exact digitChar_not_sep_not_space d

theorem toList_decimalRepr (n : Nat) : (decimalRepr n).toList = decimalChars n := rfl

theorem trimSpace_decimalRepr (n : Nat) : trimSpace (decimalRepr n) = decimalRepr n := by
  show (⟨trimChars (decimalChars n)⟩ : String) = ⟨decimalChars n⟩
  rw [trimChars_eq_self_of_forall (fun c hc => (decimalChars_no_sep_no_space n c hc).2)]

theorem parseUint_decimalRepr {n : Nat} (h : n < 2 ^ 64) :
    parseUint (decimalRepr n) = some n := by
  unfold parseUint
  rw [toList_decimalRepr, if_neg (decimalChars_ne_nil n), parseDigitsAux_decimalChars]
  exact if_pos h

theorem parseUint_lt {s : String} {n : Nat} (h : parseUint s = some n) : n < 2 ^ 64 := by
  unfold parseUint at h
  by_cases hl : s.toList = []
  · rw [if_pos hl] at h
    exact absurd h (by simp)
  · rw [if_neg hl] at h
    rcases hp : parseDigitsAux 0 s.toList with _ | v <;> rw [hp] at h
    · exact absurd h (by simp)
    · change (if v < 2 ^ 64 then some v else none) = some n at h
      by_cases hv : v < 2 ^ 64
      · rw [if_pos hv] at h
        cases h
        exact hv
      · rw [if_neg hv] at h
        exact absurd h (by simp)

theorem coerceUintListAux_ok_iff (ps : List String) :
    ∀ (i : Nat) (L : List Nat), coerceUintListAux i ps = .ok L ↔
      List.Forall₂ (fun p n => parseUint (trimSpace p) = some n) ps L := by
  induction ps with
  | nil =>
      intro i L
      constructor
      · intro h
        cases h
        exact List.Forall₂.nil
      · intro h
        rw [List.forall₂_nil_left_iff] at h
        subst h
        rfl
  | cons v vs ih =>
      intro i L
      simp only [coerceUintListAux]
      rcases hv : parseUint (trimSpace v) with _ | n
      · constructor
        · intro h; exact absurd h (by simp)
        · intro h
          rw [List.forall₂_cons_left_iff] at h
          obtain ⟨b, l', hb, _, _⟩ := h
          rw [hv] at hb
          exact absurd hb (by simp)
      · rcases hr : coerceUintListAux (i + 1) vs with e | rest
        · constructor
          · intro h; exact absurd h (by simp)
          · intro h
            rw [List.forall₂_cons_left_iff] at h
            obtain ⟨b, l', _, htail, _⟩ := h
            have := (ih (i + 1) l').mpr htail
            rw [hr] at this
            exact absurd this (by simp)
        · have htail := (ih (i + 1) rest).mp hr
          constructor
          · intro h
            cases h
            exact List.Forall₂.cons hv htail
          · intro h
            rw [List.forall₂_cons_left_iff] at h
            obtain ⟨b, l', hb, htl, hL⟩ := h
            rw [hv] at hb
            cases hb
            have := (ih (i + 1) l').mpr htl
            rw [hr] at this
            cases this
            rw [hL]

theorem coerceUintListAux_error_at (bad : String) (hbad : parseUint (trimSpace bad) = none)
    (rest : List String) :
    ∀ (pre : List String), (∀ p ∈ pre, (parseUint (trimSpace p)).isSome = true) →
    ∀ i, coerceUintListAux i (pre ++ bad :: rest) =
      .error ("element " ++ Nat.repr (i + pre.length) ++ ": must be positive integer") := by
  intro pre
  induction pre with
  | nil =>
      intro _ i
      simp only [List.nil_append, coerceUintListAux, hbad, List.length_nil, Nat.add_zero]
  | cons v pre' ih =>
      intro h i
      have hv : (parseUint (trimSpace v)).isSome = true := h v (by simp)
      rcases hvv : parseUint (trimSpace v) with _ | n
      · rw [hvv] at hv; exact absurd hv (by simp)
      · simp only [List.cons_append, coerceUintListAux, hvv]
        have hre : pre'.append (bad :: rest) = pre' ++ bad :: rest := rfl
        rw [hre, ih (fun x hx => h x (by simp [hx])) (i + 1)]
        have harith : i + 1 + pre'.length = i + (pre'.length + 1) := by omega
        rw [harith]
        simp

theorem forall₂_parse_bound {ps : List String} {L : List Nat}
    (hf : List.Forall₂ (fun p n => parseUint (trimSpace p) = some n) ps L) :
    ∀ n ∈ L, n < 2 ^ 64 := by
  induction hf with
  | nil => intro n hn; exact absurd hn (by simp)
  | cons hp _ ih =>
      intro n hn
      rcases List.mem_cons.mp hn with hn | hn
      · subst hn
        exact parseUint_lt hp
      · exact ih n hn

theorem coerceUintListAux_ok_bound {i : Nat} {ps : List String} {L : List Nat}
    (h : coerceUintListAux i ps = .ok L) : ∀ n ∈ L, n < 2 ^ 64 :=
  forall₂_parse_bound ((coerceUintListAux_ok_iff ps i L).mp h)

theorem setFieldValue_error_iff (f : Field) (raw : String) (req : GenericRequest)
    (e : String) :
    setFieldValue f raw req = .error e ↔
      setFieldValue f raw (zeroRequest "") = .error e := by
  cases f <;> simp only [setFieldValue]
  case Name => simp
  case Email => simp
  case Tags => simp
  case Rating => rcases h : parseInt raw with _ | v <;> simp [h]
  case UserID => rcases h : parseUint raw with _ | v <;> simp [h]
  case IDs => rcases h : coerceUintList raw with e' | l <;> simp [h]

theorem processField_fst (r : Request) (req : GenericRequest) (cfg : ValidationConfig) :
    (processField r req cfg).1 = fieldErrors r cfg := by
  unfold processField fieldErrors
  rcases hf : lookupField cfg.FieldName with _ | f
  · rfl
  · simp only
    by_cases hp : (getRawValue r cfg).2
    · simp only [if_pos hp]
      rcases hs : setFieldValue f (getRawValue r cfg).1 req with e | req2
      · rw [(setFieldValue_error_iff f _ req e).mp hs]
      · rcases hz : setFieldValue f (getRawValue r cfg).1 (zeroRequest "") with e | q
        · rw [(setFieldValue_error_iff f _ req e).mpr hz] at hs
          exact absurd hs (by simp)
        · rfl
    · simp only [if_neg hp]
      by_cases hr : cfg.Required <;> simp [hr]

theorem extractFields_fst (r : Request) (configs : List ValidationConfig) :
    ∀ req : GenericRequest,
      (extractFields r configs req).1 = (configs.map (fieldErrors r)).flatten := by
  induction configs with
  | nil => intro req; rfl
  | cons cfg rest ih =>
      intro req
      simp only [extractFields, List.map_cons, List.flatten]
      rw [processField_fst, ih]

theorem fieldErrors_field (r : Request) (cfg : ValidationConfig) :
    ∀ e ∈ fieldErrors r cfg, e.Field = cfg.FieldName := by
  intro e he
  unfold fieldErrors at he
  rcases hf : lookupField cfg.FieldName with _ | f <;> rw [hf] at he
  · exact absurd he (by simp)
  · simp only at he
    by_cases hp : (getRawValue r cfg).2
    · rw [if_pos hp] at he
      rcases hs : setFieldValue f (getRawValue r cfg).1 (zeroRequest "") with e' | q <;>
        rw [hs] at he
      · simp at he
        rw [he]
      · exact absurd he (by simp)
    · rw [if_neg hp] at he
      by_cases hr : cfg.Required
      · rw [if_pos hr] at he
        simp at he
        rw [he]
      · rw [if_neg hr] at he
        exact absurd he (by simp)

theorem join_errors_filter_nil (r : Request) (name : String)
    (configs : List ValidationConfig) (h : ∀ c ∈ configs, c.FieldName ≠ name) :
    ((configs.map (fieldErrors r)).flatten).filter (fun e => decide (e.Field = name)) = [] := by
  rw [List.filter_eq_nil_iff]
  intro e he
  obtain ⟨l, hl, hel⟩ := List.mem_flatten.mp he
  obtain ⟨c, hc, hfc⟩ := List.mem_map.mp hl
  subst hfc
  have := fieldErrors_field r c e hel
  simp only [decide_eq_true_eq]
  rw [this]
  exact h c hc

theorem join_errors_filter_single (r : Request) (cfg : ValidationConfig)
    (configs : List ValidationConfig)
    (h : configs.filter (fun c => decide (c.FieldName = cfg.FieldName)) = [cfg]) :
    ((configs.map (fieldErrors r)).flatten).filter (fun e => decide (e.Field = cfg.FieldName)) =
      (fieldErrors r cfg).filter (fun e => decide (e.Field = cfg.FieldName)) := by
  induction configs with
  | nil => exact absurd h (by simp)
  | cons c rest ih =>
      by_cases hc : c.FieldName = cfg.FieldName
      · rw [List.filter_cons_of_pos (by simp [hc])] at h
        have hcc : c = cfg := by
          have := congrArg (fun l => l.head?) h
          simpa using this
        have hrest : rest.filter (fun c => decide (c.FieldName = cfg.FieldName)) = [] := by
          have := congrArg (fun l => l.tail) h
          simpa using this
        have hnone : ∀ c' ∈ rest, c'.FieldName ≠ cfg.FieldName := by
          intro c' hc'
          have := List.filter_eq_nil_iff.mp hrest c' hc'
          simpa using this
        simp only [List.map_cons, List.flatten, List.filter_append]
        rw [join_errors_filter_nil r cfg.FieldName rest hnone, hcc]
        simp
      · rw [List.filter_cons_of_neg (by simp [hc])] at h
        simp only [List.map_cons, List.flatten, List.filter_append]
        rw [ih h]
        have hcnil : (fieldErrors r c).filter (fun e => decide (e.Field = cfg.FieldName)) = [] := by
          rw [List.filter_eq_nil_iff]
          intro e he
          have := fieldErrors_field r c e he
          simp only [decide_eq_true_eq]
          rw [this]
          exact hc
        rw [hcnil]
        simp

theorem uniqueAux_eq_true_iff (l : List String) :
    ∀ seen : List String, uniqueAux seen l = true ↔ (l.Nodup ∧ ∀ x ∈ l, x ∉ seen) := by
  induction l with
  | nil => intro seen; simp [uniqueAux]
  | cons v vs ih =>
      intro seen
      unfold uniqueAux
      by_cases hc : seen.contains v = true
      · rw [if_pos hc]
        simp only [Bool.false_eq_true, false_iff, not_and]
        intro _ hall
        exact hall v (by simp) (List.elem_iff.mp hc)
      · rw [if_neg hc]
        rw [ih (v :: seen)]
        have hvseen : v ∉ seen := fun hv => hc (List.elem_iff.mpr hv)
        constructor
        · rintro ⟨hnd, hall⟩
          have hvnot : v ∉ vs := by
            intro hv
            exact (hall v hv) (by simp)
          refine ⟨List.nodup_cons.mpr ⟨hvnot, hnd⟩, ?_⟩
          intro x hx
          rcases List.mem_cons.mp hx with hx | hx
          · subst hx; exact hvseen
          · intro hin
            exact (hall x hx) (by simp [hin])
        · rintro ⟨hnd, hall⟩
          obtain ⟨hvnot, hnd'⟩ := List.nodup_cons.mp hnd
          refine ⟨hnd', ?_⟩
          intro x hx hin
          rcases List.mem_cons.mp hin with hxv | hxs
          · subst hxv; exact hvnot hx
          · exact (hall x (by simp [hx])) hxs

/-- C2 counterexample: a descriptor whose `FieldName` ("Bogus") names no
field of `GenericRequest`, marked `Required`, produces no error at all —
the full pipeline returns the fully-valid outcome instead of any loud
ConfigurationError failure. -/
theorem claim_c2_counterexample :
    ValidateRequest [⟨"Bogus", .query, true, "", "required"⟩] "create" (fun _ => [])
        ⟨[], [], ""⟩ = .valid (zeroRequest "create") := by
  decide

/-- C2 (amended): a descriptor whose `FieldName` names no field of the
request record is silently skipped — processing it appends no error (even
when `Required` is set and even when the source holds a value) and leaves
the record unchanged; no ConfigurationError is surfaced. (The hypothesis
excluding `"validationGroup"` keeps the statement inside the embedding:
reflection finds that unexported field by name, and setting it would
panic, which the embedding does not model.) -/
theorem claim_c2_amended (r : Request) (req : GenericRequest) (cfg : ValidationConfig)
    (hf : lookupField cfg.FieldName = none)
    (_hg : cfg.FieldName ≠ "validationGroup") :
    processField r req cfg = ([], req) := by
  unfold processField
  rw [hf]

/-- C2 witness: the amended claim at a concrete unknown-name descriptor
whose query value is even present. -/
theorem claim_c2_witness :
    processField ⟨[("Bogus", "7")], [], ""⟩ (zeroRequest "g")
        ⟨"Bogus", .query, true, "", ""⟩ = ([], zeroRequest "g") :=
  claim_c2_amended _ _ _ (by decide) (by decide)

/-- C3 (code bug evidence): the `/search` Rating descriptor of
src/main.go configures `Default: "5"`, yet with the field absent from the
query the pipeline leaves `Rating` at its zero value `0` and never coerces
the default literal — `cfg.Default` is read nowhere in `ValidateRequest`. -/
theorem claim_c3_default_ignored :
    ValidateRequest [⟨"Rating", .query, false, "5", "omitempty,min=1,max=5"⟩] "search"
        (fun _ => []) ⟨[], [], ""⟩ = .valid (zeroRequest "search")
    ∧ (zeroRequest "search").Rating = 0 := by
  constructor
  · decide
  · rfl

/-- C4 counterexample: coercing the empty raw string (and likewise a
whitespace-only one) yields the one-element list containing the empty
string, not the empty (zero-element) list the claim states. -/
theorem claim_c4_counterexample :
    coerceStringList "" = [""] ∧ coerceStringList "" ≠ [] ∧
      coerceStringList " " = [""] := by
  refine ⟨by decide, by decide, by decide⟩

/-- C4 (amended): string-list coercion splits the raw value on `','`
(joining the split pieces with `','` restores the input), trims
surrounding whitespace from every element (each output element is
trim-stable), and never fails — but an input consisting only of
empty/whitespace text produces the one-element list containing the empty
string, not a zero-element list. -/
theorem claim_c4_amended (raw : String) :
    coerceStringList raw ≠ []
    ∧ (∀ s ∈ coerceStringList raw, trimSpace s = s)
    ∧ joinChar ',' ((goSplit raw ',').map String.toList) = raw.toList
    ∧ (raw.toList.all isGoSpace = true → coerceStringList raw = [""]) := by
  refine ⟨?_, ?_, ?_, ?_⟩
  · intro h
    unfold coerceStringList goSplit at h
    rw [List.map_eq_nil_iff, List.map_eq_nil_iff] at h
    exact splitChar_ne_nil ',' raw.toList h
  · intro s hs
    obtain ⟨t, _, hts⟩ := List.mem_map.mp hs
    subst hts
    exact trimSpace_idem t
  · unfold goSplit
    rw [List.map_map]
    have hcomp : (String.toList ∘ fun l => (⟨l⟩ : String)) = id := funext (fun l => rfl)
    rw [hcomp, List.map_id]
    exact joinChar_splitChar ',' raw.toList
  · intro hall
    have hall' : ∀ c ∈ raw.toList, isGoSpace c = true := by
      intro c hc
      exact List.all_eq_true.mp hall c hc
    have hsp : splitChar ',' raw.toList = [raw.toList] := by
      apply splitChar_of_no_sep
      intro c hc hcc
      have := hall' c hc
      rw [hcc] at this
      exact absurd this (by decide)
    unfold coerceStringList goSplit
    rw [hsp]
    simp only [List.map_cons, List.map_nil]
    have : trimSpace ⟨raw.toList⟩ = ⟨([] : List Char)⟩ := by
      show (⟨trimChars raw.toList⟩ : String) = ⟨([] : List Char)⟩
      rw [trimChars_eq_nil_of_forall hall']
    rw [this]

/-- C4 witness: the amended claim's whitespace clause at a concrete
all-blank input. -/
theorem claim_c4_witness : coerceStringList "  " = [""] :=
  (claim_c4_amended "  ").2.2.2 (by decide)

/-- C7: the `in` rule with parameter `"a,b,c"` passes exactly the strings
`"a"`, `"b"`, `"c"` (exact, case-sensitive match), and its reported
message is the comma-space joined literal `"Must be one of: a, b, c"`. -/
theorem claim_c7 :
    (∀ v : String, inRule "a,b,c" v = true ↔ (v = "a" ∨ v = "b" ∨ v = "c"))
    ∧ ∀ (kind : MsgKind) (errString : String),
        getValidationMessage "in" "a,b,c" kind errString = "Must be one of: a, b, c" := by
  constructor
  · intro v
    have hsp : goSplit "a,b,c" ',' = ["a", "b", "c"] := by decide
    unfold inRule
    rw [hsp]
    simp only [List.any_cons, List.any_nil, Bool.or_eq_true, decide_eq_true_eq,
      Bool.false_eq_true, or_false]
    constructor
    · rintro (h | h | h) <;> subst h <;> simp
    · rintro (h | h | h) <;> subst h <;> simp
  · intro kind errString
    rfl

/-- C8: the `unique` rule passes exactly when no two elements have the
same string form (`Nodup` on the stringified elements); `["x","x"]` fails,
`["x","y"]` passes, and the reported message is the literal
`"Contains duplicate values"`. -/
theorem claim_c8 :
    (∀ elems : List String, uniqueRule elems = true ↔ elems.Nodup)
    ∧ uniqueRule ["x", "x"] = false
    ∧ uniqueRule ["x", "y"] = true
    ∧ ∀ (param : String) (kind : MsgKind) (errString : String),
        getValidationMessage "unique" param kind errString = "Contains duplicate values" := by
  refine ⟨?_, by decide, by decide, ?_⟩
  · intro elems
    unfold uniqueRule
    rw [uniqueAux_eq_true_iff elems []]
    simp
  · intro param kind errString
    rfl

/-- C10: for a body-sourced descriptor the raw-value lookup returns
`("", false)` no matter what the request (and in particular its body)
contains; consequently a required body-sourced field always yields the
single "This field is required" error and a non-required one leaves the
record untouched. -/
theorem claim_c10 (r : Request) (cfg : ValidationConfig) (hb : cfg.Parser = .body) :
    getRawValue r cfg = ("", false)
    ∧ ∀ (req : GenericRequest) (f : Field), lookupField cfg.FieldName = some f →
        processField r req cfg =
          ((if cfg.Required then [⟨cfg.FieldName, "This field is required", ""⟩] else []),
            req) := by
  have h1 : getRawValue r cfg = ("", false) := by
    unfold getRawValue
    rw [hb]
  refine ⟨h1, ?_⟩
  intro req f hf
  unfold processField
  rw [hf, h1]
  by_cases hr : cfg.Required <;> simp [hr]

/-- C10 witness: a request whose body mentions a name still produces the
required-field error for the body-sourced `Name` descriptor. -/
theorem claim_c10_witness :
    processField ⟨[], [], "name=Bob"⟩ (zeroRequest "create")
        ⟨"Name", .body, true, "", "required,min=3,max=50"⟩ =
      ([⟨"Name", "This field is required", ""⟩], zeroRequest "create") := by
  have h := (claim_c10 ⟨[], [], "name=Bob"⟩ ⟨"Name", .body, true, "", "required,min=3,max=50"⟩
    rfl).2 (zeroRequest "create") .Name (by decide)
  simpa using h

/-- C1: the extraction pipeline visits every descriptor — the error list
it collects is the concatenation, in declaration order, of every
descriptor's errors. If that list is nonempty the outcome is the 400
BadRequest carrying exactly those errors, for every validation engine (so
the engine is never consulted); only when it is empty is the assembled
record handed to the validation engine. -/
theorem claim_c1 (configs : List ValidationConfig) (group : String) (r : Request) :
    ((configs.map (fieldErrors r)).flatten ≠ [] →
      ∀ validateStruct, ValidateRequest configs group validateStruct r =
        .badRequest 400 "Invalid request data" ((configs.map (fieldErrors r)).flatten))
    ∧ ((configs.map (fieldErrors r)).flatten = [] →
      ∀ validateStruct, ValidateRequest configs group validateStruct r =
        match validateStruct (extractFields r configs (zeroRequest group)).2 with
        | [] => .valid (extractFields r configs (zeroRequest group)).2
        | verrs => .unprocessable 422 "Validation failed" verrs) := by
  constructor
  · intro h validateStruct
    unfold ValidateRequest
    rw [extractFields_fst]
    rw [if_neg (by rw [List.isEmpty_iff]; exact h)]
  · intro h validateStruct
    unfold ValidateRequest
    rw [extractFields_fst]
    rw [if_pos (by rw [List.isEmpty_iff]; exact h)]

/-- C1 witness: a single required path-sourced descriptor missing from
the route variables drives the pipeline to the 400 outcome with that
descriptor's error. -/
theorem claim_c1_witness :
    ValidateRequest [⟨"UserID", .param, true, "", "required,min=1"⟩] "update"
        (fun _ => []) ⟨[], [], ""⟩ =
      .badRequest 400 "Invalid request data"
        [⟨"UserID", "This field is required", ""⟩] := by
  have h := (claim_c1 [⟨"UserID", .param, true, "", "required,min=1"⟩] "update"
    ⟨[], [], ""⟩).1 (by decide) (fun _ => [])
  exact h.trans (by decide)

/-- C5: a required descriptor (naming a real field) whose source lookup
reports absence contributes exactly the one error
`"This field is required"` with no attached raw value, leaves the record
unchanged (coercion skipped), and — when it is the only descriptor for
its field — the final outcome is the 400 BadRequest whose errors for that
field are exactly that one required error (so no coercion error, and the
validation engine's rules never run). -/
theorem claim_c5 (r : Request) (cfg : ValidationConfig) (f : Field)
    (hf : lookupField cfg.FieldName = some f)
    (hreq : cfg.Required = true)
    (habs : (getRawValue r cfg).2 = false) :
    (∀ req, processField r req cfg =
      ([⟨cfg.FieldName, "This field is required", ""⟩], req))
    ∧ (∀ (configs : List ValidationConfig) (group : String) validateStruct,
        configs.filter (fun c => decide (c.FieldName = cfg.FieldName)) = [cfg] →
        ∃ errs, ValidateRequest configs group validateStruct r =
            .badRequest 400 "Invalid request data" errs
          ∧ errs.filter (fun e => decide (e.Field = cfg.FieldName)) =
              [⟨cfg.FieldName, "This field is required", ""⟩]) := by
  have h1 : ∀ req, processField r req cfg =
      ([⟨cfg.FieldName, "This field is required", ""⟩], req) := by
    intro req
    unfold processField
    rw [hf, habs]
    simp [hreq]
  refine ⟨h1, ?_⟩
  intro configs group validateStruct hfilter
  have hmemf : cfg ∈ configs.filter (fun c => decide (c.FieldName = cfg.FieldName)) := by
    rw [hfilter]; simp
  have hmem : cfg ∈ configs := (List.mem_filter.mp hmemf).1
  have hfe : fieldErrors r cfg = [⟨cfg.FieldName, "This field is required", ""⟩] := by
    rw [← processField_fst r (zeroRequest "") cfg, h1 (zeroRequest "")]
  have hne : (configs.map (fieldErrors r)).flatten ≠ [] := by
    intro hnil
    have hin : (⟨cfg.FieldName, "This field is required", ""⟩ : ValidationError) ∈
        (configs.map (fieldErrors r)).flatten :=
      List.mem_flatten.mpr ⟨fieldErrors r cfg, List.mem_map_of_mem _ hmem, by rw [hfe]; simp⟩
    rw [hnil] at hin
    exact absurd hin (by simp)
  refine ⟨(configs.map (fieldErrors r)).flatten, ?_, ?_⟩
  · unfold ValidateRequest
    rw [extractFields_fst]
    rw [if_neg (by rw [List.isEmpty_iff]; exact hne)]
  · rw [join_errors_filter_single r cfg configs hfilter, hfe]
    simp

/-- C5 witness: a missing required query field `Email` at a request that
carries an unrelated query key. -/
theorem claim_c5_witness :
    processField ⟨[("Name", "Bob")], [], ""⟩ (zeroRequest "create")
        ⟨"Email", .query, true, "", "required,email"⟩ =
      ([⟨"Email", "This field is required", ""⟩], zeroRequest "create") :=
  (claim_c5 ⟨[("Name", "Bob")], [], ""⟩ ⟨"Email", .query, true, "", "required,email"⟩
    .Email (by decide) rfl (by decide)).1 (zeroRequest "create")

/-- C6: unsigned-integer-list coercion splits on `','`, trims and parses
each piece as a base-10 unsigned integer (success is elementwise parsing
of every piece, in order); at the first unparsable piece it stops with
the single error message naming that piece's 1-based index, and a
coercion failure leaves the record — hence the `IDs` field — unchanged at
its zero value, recorded as one error carrying the raw text. -/
theorem claim_c6 :
    (∀ (raw : String) (pre : List String) (bad : String) (rest : List String),
      goSplit raw ',' = pre ++ bad :: rest →
      (∀ p ∈ pre, (parseUint (trimSpace p)).isSome = true) →
      parseUint (trimSpace bad) = none →
      coerceUintList raw =
        .error ("element " ++ Nat.repr (pre.length + 1) ++ ": must be positive integer"))
    ∧ (∀ raw (L : List Nat), coerceUintList raw = .ok L ↔
        List.Forall₂ (fun p n => parseUint (trimSpace p) = some n) (goSplit raw ',') L)
    ∧ (∀ (r : Request) (req : GenericRequest) (cfg : ValidationConfig) (msg : String),
        lookupField cfg.FieldName = some .IDs →
        (getRawValue r cfg).2 = true →
        coerceUintList (getRawValue r cfg).1 = .error msg →
        processField r req cfg = ([⟨cfg.FieldName, msg, (getRawValue r cfg).1⟩], req)) := by
  refine ⟨?_, ?_, ?_⟩
  · intro raw pre bad rest hsplit hpre hbad
    unfold coerceUintList
    rw [hsplit, coerceUintListAux_error_at bad hbad rest pre hpre 1]
    have harith : 1 + pre.length = pre.length + 1 := by omega
    rw [harith]
  · intro raw L
    unfold coerceUintList
    exact coerceUintListAux_ok_iff _ 1 L
  · intro r req cfg msg hf hfound hc
    unfold processField
    rw [hf, hfound]
    have hs : setFieldValue .IDs (getRawValue r cfg).1 req = .error msg := by
      unfold setFieldValue
      rw [hc]
    simp [hs]

/-- C6 witness: the raw value `"1, x,3"` fails at its second piece with
the message naming index 2. -/
theorem claim_c6_witness :
    coerceUintList "1, x,3" = .error "element 2: must be positive integer" := by
  have h := claim_c6.1 "1, x,3" ["1"] " x" ["3"] (by decide) (by decide) (by decide)
  exact h.trans (by rfl)

/-- C9: unsigned-integer-list coercion is idempotent under
re-serialization — if a raw value coerces to the list `L`, then
comma-joining the decimal representations of `L`'s elements and coercing
again yields exactly `L`. -/
theorem claim_c9 (raw : String) (L : List Nat) (h : coerceUintList raw = .ok L) :
    coerceUintList (commaJoin (L.map decimalRepr)) = .ok L := by
  have hf : List.Forall₂ (fun p n => parseUint (trimSpace p) = some n) (goSplit raw ',') L :=
    (coerceUintListAux_ok_iff _ 1 L).mp h
  have hbound : ∀ n ∈ L, n < 2 ^ 64 := forall₂_parse_bound hf
  have hLne : L ≠ [] := by
    intro hL
    have hlen := hf.length_eq
    rw [hL] at hlen
    simp only [List.length_nil] at hlen
    have hnil : goSplit raw ',' = [] := List.length_eq_zero.mp hlen
    unfold goSplit at hnil
    rw [List.map_eq_nil_iff] at hnil
    exact splitChar_ne_nil ',' raw.toList hnil
  have hpieces : goSplit (commaJoin (L.map decimalRepr)) ',' = L.map decimalRepr := by
    unfold commaJoin goSplit
    have ht : (⟨joinChar ',' ((L.map decimalRepr).map String.toList)⟩ : String).toList =
        joinChar ',' ((L.map decimalRepr).map String.toList) := rfl
    rw [ht]
    rw [splitChar_joinChar ',' ((L.map decimalRepr).map String.toList)
      (by simp [List.map_eq_nil_iff]; exact hLne)
      (by
        intro p hp c hcp
        rw [List.map_map] at hp
        obtain ⟨n, _, hn⟩ := List.mem_map.mp hp
        have hpn : p = decimalChars n := hn.symm ▸ rfl
        rw [hpn] at hcp
        exact (decimalChars_no_sep_no_space n c hcp).1)]
    rw [List.map_map]
    have hcomp : ((fun l => (⟨l⟩ : String)) ∘ String.toList) = id := funext (fun s => rfl)
    rw [hcomp, List.map_id]
  have hfor : List.Forall₂ (fun p n => parseUint (trimSpace p) = some n)
      (L.map decimalRepr) L := by
    rw [List.forall₂_map_left_iff, List.forall₂_same]
    intro n hn
    rw [trimSpace_decimalRepr, parseUint_decimalRepr (hbound n hn)]
  unfold coerceUintList
  rw [hpieces]
  exact (coerceUintListAux_ok_iff _ 1 L).mpr hfor

/-- C9 witness: `"1, 2,003"` coerces to `[1, 2, 3]`, and coercing the
re-serialized `"1,2,3"` yields the same list. -/
theorem claim_c9_witness :
    coerceUintList (commaJoin ([1, 2, 3].map decimalRepr)) = .ok [1, 2, 3] :=
  claim_c9 "1, 2,003" [1, 2, 3] rfl

end Validate
